import Mathlib

/-!
Shallow embedding of `src/src/lib.rs` (the rspec crate): a minimal
behavior-driven test framework. A `Context` accumulates test closures and
before-hooks in flat registration order; `describe` builds a `Runner`;
`Runner.run` executes each test case inside a `catch_unwind` boundary
(hooks first, then the test), aggregating a `TestReport`.

Closures are embedded by their observable behavior when invoked: a test
closure either returns a `TestResult` or panics; a before-hook either
returns `()` or panics. The `u32` counters of `TestReport` are embedded as
`Nat`: every counter is incremented exactly once per registered test case,
so each one equals a count bounded by the length of the registration list.
Execution additionally records a ghost trace of closure invocations
(`Event`), which embeds the side effects the crate's own tests observe
with atomic counters.
-/

/-- Rust `Result<A, E>`. -/
inductive RustResult (α : Type) (ε : Type) : Type
  | Ok : α → RustResult α ε
  | Err : ε → RustResult α ε
deriving DecidableEq

/-- Rust `pub type TestResult = Result<(), ()>;`. -/
abbrev TestResult := RustResult Unit Unit

/-- Behavior of a registered test closure (`FnMut() -> TestResult`) when it
is invoked: it either returns a `TestResult`, or panics. -/
inductive TestBehavior : Type
  | ret : TestResult → TestBehavior
  | panic : TestBehavior
deriving DecidableEq

/-- Behavior of a registered before-hook closure (`FnMut() -> ()`) when it
is invoked: it either returns normally, or panics. -/
inductive HookBehavior : Type
  | ret : HookBehavior
  | panic : HookBehavior
deriving DecidableEq

/-- Ghost trace event: `hook i j` records that the before-hook with
registration index `j` was invoked while processing the test case with
registration index `i`; `test i` records that the body of test case `i`
was invoked. -/
inductive Event : Type
  | hook : Nat → Nat → Event
  | test : Nat → Event
deriving DecidableEq

/-- The test case a trace event belongs to. -/
def eventCase : Event → Nat
  | Event.hook i _ => i
  | Event.test i => i

/-- Rust `pub struct Context<'a>`: the single flat registration context,
holding the test closures and the before-hooks in registration order. -/
structure Context : Type where
  tests : List TestBehavior
  before_each : List HookBehavior
deriving DecidableEq

/-- Rust `Context::describe`: invokes `body` on the same context
(`body(self)`); the name is ignored. -/
def Context.describe (c : Context) (_name : String) (body : Context → Context) : Context :=
  body c

/-- Rust `Context::it`: appends the test closure to `tests`. -/
def Context.it (c : Context) (_name : String) (body : TestBehavior) : Context :=
  { c with tests := c.tests ++ [body] }

/-- Rust `Context::before`: appends the hook closure to `before_each`. -/
def Context.before (c : Context) (body : HookBehavior) : Context :=
  { c with before_each := c.before_each ++ [body] }

/-- Rust `pub struct TestReport` (`u32` counters embedded as `Nat`). -/
structure TestReport : Type where
  total_tests : Nat
  success_count : Nat
  error_count : Nat
deriving DecidableEq

/-- Rust `TestReport::default()`: all counters zero. -/
def TestReport.default : TestReport :=
  { total_tests := 0, success_count := 0, error_count := 0 }

/-- Rust `pub struct Runner<'a>`. -/
structure Runner : Type where
  describe : Context
  report : Option (RustResult TestReport TestReport)

/-- Rust free function `describe`: allocates a fresh empty context, runs
the builder once on it, and wraps the result in a `Runner` with no
report. -/
def describe (_block_name : String) (body : Context → Context) : Runner :=
  { describe := body { tests := [], before_each := [] }, report := none }

/-- Running the before-hooks for test case `caseIdx`, starting at hook
index `hookIdx`: invokes each hook in order, stopping at the first one
that panics. Returns the invocation events and whether a hook panicked. -/
def runHooks (caseIdx hookIdx : Nat) : List HookBehavior → List Event × Bool
  | [] => ([], false)
  | HookBehavior.ret :: rest =>
      let r := runHooks caseIdx (hookIdx + 1) rest
      (Event.hook caseIdx hookIdx :: r.1, r.2)
  | HookBehavior.panic :: _ => ([Event.hook caseIdx hookIdx], true)

/-- The body of one loop iteration of `Runner::run`, i.e. the
`catch_unwind(AssertUnwindSafe(|| ...))` closure together with the
`match res { Ok(res) => res, _ => Err(()) }` conversion: run every
before-hook in registration order, then invoke the test. A panic anywhere
abandons the rest of the case and yields `Err(())`. -/
def runCase (caseIdx : Nat) (hooks : List HookBehavior) (t : TestBehavior) :
    List Event × TestResult :=
  let es := (runHooks caseIdx 0 hooks).1
  if (runHooks caseIdx 0 hooks).2 then
    (es, RustResult.Err ())
  else
    match t with
    | TestBehavior.ret r => (es ++ [Event.test caseIdx], r)
    | TestBehavior.panic => (es ++ [Event.test caseIdx], RustResult.Err ())

/-- The mutable state of the `Runner::run` loop: the `report` counters,
the `result` accumulator, and the ghost event trace. -/
structure RunState : Type where
  report : TestReport
  result : TestResult
  events : List Event

/-- One iteration of the `Runner::run` loop on state `s`:
`result = match result { Ok(()) => { success_count += 1; res },
old => { error_count += 1; old } }; total_tests += 1;`. -/
def stepState (i : Nat) (hooks : List HookBehavior) (t : TestBehavior) (s : RunState) :
    RunState :=
  let res := (runCase i hooks t).2
  let es := (runCase i hooks t).1
  match s.result with
  | RustResult.Ok _ =>
      { report := { total_tests := s.report.total_tests + 1,
                    success_count := s.report.success_count + 1,
                    error_count := s.report.error_count },
        result := res,
        events := s.events ++ es }
  | RustResult.Err e =>
      { report := { total_tests := s.report.total_tests + 1,
                    success_count := s.report.success_count,
                    error_count := s.report.error_count + 1 },
        result := RustResult.Err e,
        events := s.events ++ es }

/-- The `for test_function in describe.tests.iter_mut()` loop of
`Runner::run`, over the remaining test cases, with `i` the registration
index of the next case. -/
def runLoop (hooks : List HookBehavior) : List TestBehavior → Nat → RunState → RunState
  | [], _, s => s
  | t :: rest, i, s => runLoop hooks rest (i + 1) (stepState i hooks t s)

/-- The initial loop state of `Runner::run`: default report, `Ok(())`
result, empty trace. -/
def initState : RunState :=
  { report := TestReport.default, result := RustResult.Ok (), events := [] }

/-- Rust `Runner::run`: runs the loop from the initial state, stores the
report wrapped by the final `result` accumulator, and returns `Ok(())`. -/
def Runner.run (r : Runner) : RustResult Unit Unit × Runner :=
  let s := runLoop r.describe.before_each r.describe.tests 0 initState
  let rep : RustResult TestReport TestReport :=
    match s.result with
    | RustResult.Ok _ => RustResult.Ok s.report
    | RustResult.Err _ => RustResult.Err s.report
  (RustResult.Ok (), { r with report := some rep })

/-- Rust `Runner::result`: `self.report.unwrap_or(Ok(TestReport::default()))`. -/
def Runner.result (r : Runner) : RustResult TestReport TestReport :=
  r.report.getD (RustResult.Ok TestReport.default)

/-- Ghost observation: the trace of closure invocations a call to
`Runner::run` performs. -/
def Runner.runEvents (r : Runner) : List Event :=
  (runLoop r.describe.before_each r.describe.tests 0 initState).events

/-- `isErr r = true` iff the test result is `Err`. -/
def isErr : TestResult → Bool
  | RustResult.Ok _ => false
  | RustResult.Err _ => true

/-- The per-case outcome after fault conversion, independent of the case
index: `Err(())` if some hook panics or the test panics, otherwise the
test's returned result. Proved below (`runCase_snd`) to agree with the
embedded loop body. -/
def caseResult (hooks : List HookBehavior) (t : TestBehavior) : TestResult :=
  if hooks.any (fun h => h == HookBehavior.panic) then RustResult.Err ()
  else
    match t with
    | TestBehavior.ret r => r
    | TestBehavior.panic => RustResult.Err ()

/-- The per-case outcomes of a run, in registration order. -/
def caseResults (hooks : List HookBehavior) (ts : List TestBehavior) : List TestResult :=
  ts.map (caseResult hooks)

/-- Number of test cases processed while the cumulative `result`
accumulator is still `Ok`: all of them if no case fails, otherwise the
cases before and including the first failing case. -/
def specSuccessCount : List TestResult → Nat
  | [] => 0
  | RustResult.Ok _ :: rest => specSuccessCount rest + 1
  | RustResult.Err _ :: _ => 1

/-- The events of one test case: the invoked hooks, then the test body if
it is reached. -/
def caseEvents (hooks : List HookBehavior) (i : Nat) (t : TestBehavior) : List Event :=
  (runCase i hooks t).1

/-- The trace of a run over the given test cases, the first one having
registration index `i`. -/
def traceFrom (hooks : List HookBehavior) : Nat → List TestBehavior → List Event
  | _, [] => []
  | i, t :: rest => caseEvents hooks i t ++ traceFrom hooks (i + 1) rest

/-- `true` iff some hook of the case or the test body panics. -/
def caseFaults (hooks : List HookBehavior) (t : TestBehavior) : Bool :=
  hooks.any (fun h => h == HookBehavior.panic) || (t == TestBehavior.panic)

/-- `true` iff the trace contains an event of test case `i`, i.e. the run
attempted case `i`. -/
def attempted (tr : List Event) (i : Nat) : Bool :=
  tr.any (fun e => eventCase e == i)

/-- The report carried by a stored run result, whichever side it is on. -/
def reportOf : RustResult TestReport TestReport → TestReport
  | RustResult.Ok rep => rep
  | RustResult.Err rep => rep

/-! ### Basic lemmas about the execution loop -/

lemma runHooks_snd (c j : Nat) (hooks : List HookBehavior) :
    (runHooks c j hooks).2 = hooks.any (fun h => h == HookBehavior.panic) := by
  induction hooks generalizing j with
  | nil => simp [runHooks]
  | cons h rest ih =>
    cases h with
    | ret => simp [runHooks, ih]
    | panic => simp [runHooks]

lemma runCase_snd (i : Nat) (hooks : List HookBehavior) (t : TestBehavior) :
    (runCase i hooks t).2 = caseResult hooks t := by
  unfold runCase caseResult
  rw [runHooks_snd]
  by_cases h : hooks.any (fun h => h == HookBehavior.panic) = true
  · simp [h]
  · simp [h]
    cases t <;> simp

lemma runLoop_err (hooks : List HookBehavior) (ts : List TestBehavior) (i : Nat)
    (s : RunState) (h : s.result = RustResult.Err ()) :
    (runLoop hooks ts i s).result = RustResult.Err () ∧
    (runLoop hooks ts i s).report.total_tests = s.report.total_tests + ts.length ∧
    (runLoop hooks ts i s).report.success_count = s.report.success_count ∧
    (runLoop hooks ts i s).report.error_count = s.report.error_count + ts.length := by
  induction ts generalizing i s with
  | nil => simp [runLoop, h]
  | cons t rest ih =>
    have hstep : stepState i hooks t s =
        { report := { total_tests := s.report.total_tests + 1,
                      success_count := s.report.success_count,
                      error_count := s.report.error_count + 1 },
          result := RustResult.Err (),
          events := s.events ++ (runCase i hooks t).1 } := by
      unfold stepState
      rw [h]
    have hih := ih (i + 1)
        { report := { total_tests := s.report.total_tests + 1,
                      success_count := s.report.success_count,
                      error_count := s.report.error_count + 1 },
          result := RustResult.Err (),
          events := s.events ++ (runCase i hooks t).1 } rfl
    simp only [runLoop, hstep]
    refine ⟨hih.1, ?_, ?_, ?_⟩
    · rw [hih.2.1]; simp only [List.length_cons]; omega
    · rw [hih.2.2.1]
    · rw [hih.2.2.2]; simp only [List.length_cons]; omega

lemma runLoop_ok (hooks : List HookBehavior) (ts : List TestBehavior) (i : Nat)
    (s : RunState) (h : s.result = RustResult.Ok ()) :
    (runLoop hooks ts i s).report.total_tests = s.report.total_tests + ts.length ∧
    (runLoop hooks ts i s).report.success_count
      = s.report.success_count + specSuccessCount (caseResults hooks ts) ∧
    (runLoop hooks ts i s).report.error_count
      = s.report.error_count + (ts.length - specSuccessCount (caseResults hooks ts)) ∧
    (runLoop hooks ts i s).result
      = (if (caseResults hooks ts).any isErr then RustResult.Err () else RustResult.Ok ()) := by
  induction ts generalizing i s with
  | nil => simp [runLoop, caseResults, specSuccessCount, h]
  | cons t rest ih =>
    have hstep : stepState i hooks t s =
        { report := { total_tests := s.report.total_tests + 1,
                      success_count := s.report.success_count + 1,
                      error_count := s.report.error_count },
          result := caseResult hooks t,
          events := s.events ++ (runCase i hooks t).1 } := by
      unfold stepState
      rw [h, runCase_snd]
    have hcr : caseResults hooks (t :: rest) = caseResult hooks t :: caseResults hooks rest := by
      simp [caseResults]
    simp only [runLoop, hstep]
    cases hres : caseResult hooks t with
    | Ok u =>
      cases u
      have hih := ih (i + 1)
          { report := { total_tests := s.report.total_tests + 1,
                        success_count := s.report.success_count + 1,
                        error_count := s.report.error_count },
            result := RustResult.Ok (),
            events := s.events ++ (runCase i hooks t).1 } rfl
      rw [hcr, hres]
      simp only [specSuccessCount, List.length_cons, List.any_cons, isErr, Bool.false_or]
      refine ⟨?_, ?_, ?_, ?_⟩
      · rw [hih.1]; dsimp only; omega
      · rw [hih.2.1]; dsimp only; omega
      · rw [hih.2.2.1]; dsimp only; omega
      · rw [hih.2.2.2]
    | Err u =>
      cases u
      have hih := runLoop_err hooks rest (i + 1)
          { report := { total_tests := s.report.total_tests + 1,
                        success_count := s.report.success_count + 1,
                        error_count := s.report.error_count },
            result := RustResult.Err (),
            events := s.events ++ (runCase i hooks t).1 } rfl
      rw [hcr, hres]
      simp only [specSuccessCount, List.length_cons, List.any_cons, isErr, Bool.true_or]
      refine ⟨?_, ?_, ?_, ?_⟩
      · rw [hih.2.1]; dsimp only; omega
      · rw [hih.2.2.1]
      · rw [hih.2.2.2]; dsimp only; omega
      · rw [hih.1]; simp

lemma specSuccessCount_le (rs : List TestResult) : specSuccessCount rs ≤ rs.length := by
  induction rs with
  | nil => simp [specSuccessCount]
  | cons r rest ih =>
    cases r with
    | Ok u => simp [specSuccessCount]; omega
    | Err u => simp [specSuccessCount]

/-! ### Trace lemmas -/

lemma stepState_events (i : Nat) (hooks : List HookBehavior) (t : TestBehavior)
    (s : RunState) :
    (stepState i hooks t s).events = s.events ++ caseEvents hooks i t := by
  unfold stepState
  cases hr : s.result <;> rfl

lemma runLoop_events (hooks : List HookBehavior) (ts : List TestBehavior) (i : Nat)
    (s : RunState) :
    (runLoop hooks ts i s).events = s.events ++ traceFrom hooks i ts := by
  induction ts generalizing i s with
  | nil => simp [runLoop, traceFrom]
  | cons t rest ih =>
    simp only [runLoop, traceFrom]
    rw [ih, stepState_events, List.append_assoc]

lemma runEvents_eq (r : Runner) :
    r.runEvents = traceFrom r.describe.before_each 0 r.describe.tests := by
  unfold Runner.runEvents
  rw [runLoop_events]
  rfl

lemma runHooks_fst_case (c j : Nat) (hooks : List HookBehavior) :
    ∀ e ∈ (runHooks c j hooks).1, eventCase e = c := by
  induction hooks generalizing j with
  | nil => simp [runHooks]
  | cons hk rest ih =>
    cases hk with
    | ret =>
      intro e he
      simp only [runHooks, List.mem_cons] at he
      rcases he with h1 | h2
      · rw [h1]; rfl
      · exact ih (j + 1) e h2
    | panic =>
      intro e he
      simp only [runHooks, List.mem_singleton] at he
      rw [he]; rfl

lemma caseEvents_mem (hooks : List HookBehavior) (i : Nat) (t : TestBehavior) :
    ∃ e ∈ caseEvents hooks i t, eventCase e = i := by
  cases hooks with
  | nil =>
    refine ⟨Event.test i, ?_, rfl⟩
    cases t <;> simp [caseEvents, runCase, runHooks]
  | cons hk rest =>
    refine ⟨Event.hook i 0, ?_, rfl⟩
    have hmem : Event.hook i 0 ∈ (runHooks i 0 (hk :: rest)).1 := by
      cases hk <;> simp [runHooks]
    unfold caseEvents runCase
    by_cases hp : (runHooks i 0 (hk :: rest)).2 = true
    · simp [hp, hmem]
    · cases t <;> simp [hp, hmem]

lemma traceFrom_attempted (hooks : List HookBehavior) (ts : List TestBehavior) :
    ∀ j i : Nat, j ≤ i → i < j + ts.length →
      attempted (traceFrom hooks j ts) i = true := by
  induction ts with
  | nil =>
    intro j i h1 h2
    simp only [List.length_nil, Nat.add_zero] at h2
    omega
  | cons t rest ih =>
    intro j i h1 h2
    simp only [List.length_cons] at h2
    unfold traceFrom attempted
    rw [List.any_append]
    rcases Nat.eq_or_lt_of_le h1 with heq | hlt
    · subst heq
      obtain ⟨e, hmem, hcase⟩ := caseEvents_mem hooks j t
      have hany : (caseEvents hooks j t).any (fun e => eventCase e == j) = true :=
        List.any_eq_true.mpr ⟨e, hmem, by simp [hcase]⟩
      rw [hany, Bool.true_or]
    · have hr := ih (j + 1) i hlt (by omega)
      unfold attempted at hr
      rw [hr, Bool.or_true]

lemma filter_range_gt (k n : Nat) :
    ((List.range n).filter (fun i => decide (k < i))).length = n - (k + 1) := by
  induction n with
  | zero => simp
  | succ n ih =>
    rw [List.range_succ, List.filter_append, List.length_append, ih]
    by_cases h : k < n
    · simp [List.filter_cons, h]
      omega
    · simp [List.filter_cons, h]
      omega

lemma runHooks_fst_ret (c : Nat) (hooks : List HookBehavior)
    (h : hooks.all (fun x => x == HookBehavior.ret) = true) :
    ∀ j : Nat, (runHooks c j hooks).1
      = (List.range hooks.length).map (fun m => Event.hook c (j + m)) := by
  induction hooks with
  | nil => intro j; simp [runHooks]
  | cons hk rest ih =>
    simp only [List.all_cons, Bool.and_eq_true, beq_iff_eq] at h
    obtain ⟨h1, h2⟩ := h
    subst h1
    intro j
    have harith : (fun m => Event.hook c (j + 1 + m))
        = (fun m => Event.hook c (j + Nat.succ m)) := by
      funext m
      congr 1
      omega
    simp only [runHooks, List.length_cons, List.range_succ_eq_map, List.map_cons,
      List.map_map]
    rw [ih (by simpa using h2) (j + 1), harith]
    refine congrArg₂ List.cons (by simp) ?_
    apply List.map_congr_left
    intro a _
    simp [Function.comp]

lemma hooks_all_ret_no_panic (hooks : List HookBehavior)
    (h : hooks.all (fun x => x == HookBehavior.ret) = true) :
    hooks.any (fun x => x == HookBehavior.panic) = false := by
  rw [List.any_eq_false]
  intro x hx
  have hx2 := List.all_eq_true.mp h x hx
  simp only [beq_iff_eq] at hx2 ⊢
  rw [hx2]
  intro hcontra
  exact HookBehavior.noConfusion hcontra

/-- The events of one test case when no hook panics: every hook in
registration order, then the test body. -/
def fullCaseEvents (m : Nat) (c : Nat) : List Event :=
  (List.range m).map (Event.hook c) ++ [Event.test c]

lemma caseEvents_all_ret (hooks : List HookBehavior)
    (h : hooks.all (fun x => x == HookBehavior.ret) = true) (i : Nat) (t : TestBehavior) :
    caseEvents hooks i t = fullCaseEvents hooks.length i := by
  have hsnd : (runHooks i 0 hooks).2 = false := by
    rw [runHooks_snd]
    exact hooks_all_ret_no_panic hooks h
  have hfst := runHooks_fst_ret i hooks h 0
  unfold caseEvents runCase fullCaseEvents
  rw [hsnd]
  cases t <;> simp [hfst]

lemma traceFrom_all_ret (hooks : List HookBehavior)
    (h : hooks.all (fun x => x == HookBehavior.ret) = true) :
    ∀ (ts : List TestBehavior) (i : Nat),
      traceFrom hooks i ts
        = ((List.range ts.length).map (fun d => fullCaseEvents hooks.length (i + d))).flatten := by
  intro ts
  induction ts with
  | nil => intro i; simp [traceFrom]
  | cons t rest ih =>
    intro i
    have harith : (fun d => fullCaseEvents hooks.length (i + 1 + d))
        = (fun d => fullCaseEvents hooks.length (i + Nat.succ d)) := by
      funext d
      congr 1
      omega
    simp only [traceFrom, List.length_cons, List.range_succ_eq_map, List.map_cons,
      List.map_map, List.flatten_cons]
    rw [caseEvents_all_ret hooks h i t, ih (i + 1), harith]
    refine congrArg₂ List.append (by simp) ?_
    refine congrArg List.flatten ?_
    apply List.map_congr_left
    intro a _
    simp [Function.comp]

/-! ### Helper lemmas about the stored run result -/

lemma reportOf_run (r : Runner) :
    reportOf ((r.run).2.result)
      = (runLoop r.describe.before_each r.describe.tests 0 initState).report := by
  cases h : (runLoop r.describe.before_each r.describe.tests 0 initState).result with
  | Ok u => simp [Runner.run, Runner.result, reportOf, h]
  | Err u => simp [Runner.run, Runner.result, reportOf, h]

lemma run_result_of_ok (r : Runner)
    (h : (runLoop r.describe.before_each r.describe.tests 0 initState).result
          = RustResult.Ok ()) :
    (r.run).2.result
      = RustResult.Ok (runLoop r.describe.before_each r.describe.tests 0 initState).report := by
  simp [Runner.run, Runner.result, h]

lemma run_result_of_err (r : Runner)
    (h : (runLoop r.describe.before_each r.describe.tests 0 initState).result
          = RustResult.Err ()) :
    (r.run).2.result
      = RustResult.Err (runLoop r.describe.before_each r.describe.tests 0 initState).report := by
  simp [Runner.run, Runner.result, h]

lemma caseResults_all_ok (hooks : List HookBehavior) (ts : List TestBehavior)
    (hh : hooks.all (fun x => x == HookBehavior.ret) = true)
    (ht : ts.all (fun t => t == TestBehavior.ret (RustResult.Ok ())) = true) :
    ∀ x ∈ caseResults hooks ts, x = RustResult.Ok () := by
  intro x hx
  simp only [caseResults, List.mem_map] at hx
  obtain ⟨t, htmem, hceq⟩ := hx
  have hteq := List.all_eq_true.mp ht t htmem
  rw [beq_iff_eq] at hteq
  subst hteq
  rw [← hceq]
  unfold caseResult
  rw [hooks_all_ret_no_panic hooks hh]
  simp

lemma specSuccessCount_all_ok (rs : List TestResult)
    (h : ∀ x ∈ rs, x = RustResult.Ok ()) : specSuccessCount rs = rs.length := by
  induction rs with
  | nil => rfl
  | cons r rest ih =>
    have hr := h r (by simp)
    subst hr
    simp only [specSuccessCount, List.length_cons]
    rw [ih (fun x hx => h x (by simp [hx]))]

lemma any_isErr_all_ok (rs : List TestResult)
    (h : ∀ x ∈ rs, x = RustResult.Ok ()) : rs.any isErr = false := by
  rw [List.any_eq_false]
  intro x hx
  rw [h x hx]
  intro hcontra
  simp [isErr] at hcontra

lemma specSuccessCount_of_no_err (rs : List TestResult) (h : rs.any isErr = false) :
    specSuccessCount rs = rs.length := by
  apply specSuccessCount_all_ok
  intro x hx
  have hnx := List.any_eq_false.mp h x hx
  cases x with
  | Ok u => cases u; rfl
  | Err u => exact absurd rfl hnx

/-! ### Claim theorems -/

/-- C1: for every run, the report's `success_count` equals the number of
test cases processed while the cumulative status was still `Ok` (the
cases before and including the first failing case, or all cases if none
fail), and `error_count` equals the number of cases processed strictly
after the first failing case; in particular, for three registered cases
with outcomes Fail, Fail, Pass in order, the report is total=3,
successCount=1, errorCount=2 with overall status Fail. -/
theorem claim1_success_error_counts (hooks : List HookBehavior) (ts : List TestBehavior)
    (rep : Option (RustResult TestReport TestReport)) :
    (reportOf (((Runner.run ⟨⟨ts, hooks⟩, rep⟩).2).result)).success_count
        = specSuccessCount (caseResults hooks ts) ∧
    (reportOf (((Runner.run ⟨⟨ts, hooks⟩, rep⟩).2).result)).error_count
        = ts.length - specSuccessCount (caseResults hooks ts) ∧
    ((Runner.run ⟨⟨[TestBehavior.ret (RustResult.Err ()), TestBehavior.ret (RustResult.Err ()),
        TestBehavior.ret (RustResult.Ok ())], []⟩, none⟩).2).result
      = RustResult.Err { total_tests := 3, success_count := 1, error_count := 2 } := by
  have hok := runLoop_ok hooks ts 0 initState rfl
  have hro := reportOf_run ⟨⟨ts, hooks⟩, rep⟩
  dsimp only at hro
  refine ⟨?_, ?_, rfl⟩
  · rw [hro, hok.2.1]
    simp [initState, TestReport.default]
  · rw [hro, hok.2.2.1]
    simp [initState, TestReport.default]

/-- C2 counterexample: with before-hooks registered as `[panic, ret]` and
one registered test case, the run's whole invocation trace is just the
first hook: the second registered before-hook is invoked zero times, not
once per test case, refuting the unconditional claim. -/
theorem claim2_counterexample :
    (Runner.runEvents ⟨⟨[TestBehavior.ret (RustResult.Ok ())],
        [HookBehavior.panic, HookBehavior.ret]⟩, none⟩) = [Event.hook 0 0] ∧
    (Runner.runEvents ⟨⟨[TestBehavior.ret (RustResult.Ok ())],
        [HookBehavior.panic, HookBehavior.ret]⟩, none⟩).count (Event.hook 0 1) = 0 ∧
    (⟨[TestBehavior.ret (RustResult.Ok ())],
        [HookBehavior.panic, HookBehavior.ret]⟩ : Context).tests.length = 1 := by
  refine ⟨rfl, by decide, rfl⟩

/-- C2 (amended): provided no registered before-hook faults, every
before-hook is invoked exactly once per test case, before that test
case's body, for every test case in the run, in the hooks' registration
order relative to other hooks: the run's trace is, for each test case in
registration order, every hook in registration order followed by that
case's body. (If a hook faults, the hooks registered after it are not
invoked for that case.) -/
theorem claim2_hooks_once_per_case (hooks : List HookBehavior) (ts : List TestBehavior)
    (rep : Option (RustResult TestReport TestReport))
    (h : hooks.all (fun x => x == HookBehavior.ret) = true) :
    Runner.runEvents ⟨⟨ts, hooks⟩, rep⟩
      = ((List.range ts.length).map (fun i =>
          (List.range hooks.length).map (Event.hook i) ++ [Event.test i])).flatten := by
  rw [runEvents_eq]
  dsimp only
  rw [traceFrom_all_ret hooks h ts 0]
  simp [fullCaseEvents]

/-- Witness for C2 (amended) at two non-faulting hooks and two tests. -/
theorem claim2_hooks_once_per_case_witness :
    ([HookBehavior.ret, HookBehavior.ret].all (fun x => x == HookBehavior.ret) = true) ∧
    Runner.runEvents ⟨⟨[TestBehavior.ret (RustResult.Ok ()), TestBehavior.panic],
        [HookBehavior.ret, HookBehavior.ret]⟩, none⟩
      = ((List.range 2).map (fun i =>
          (List.range 2).map (Event.hook i) ++ [Event.test i])).flatten :=
  ⟨by decide,
    claim2_hooks_once_per_case [HookBehavior.ret, HookBehavior.ret]
      [TestBehavior.ret (RustResult.Ok ()), TestBehavior.panic] none (by decide)⟩

/-- C3: a panic inside a before-hook or a test body is caught at the
per-case boundary and converted into a `Fail` (`Err`) outcome for that
case, `Run()` still returns success, the report covers every registered
case, and the number of cases attempted strictly after the faulting case
equals the number registered after it. -/
theorem claim3_fault_isolation (hooks : List HookBehavior) (ts : List TestBehavior)
    (rep : Option (RustResult TestReport TestReport)) (k : Nat) (hk : k < ts.length)
    (hf : caseFaults hooks (ts.get ⟨k, hk⟩) = true) :
    (runCase k hooks (ts.get ⟨k, hk⟩)).2 = RustResult.Err () ∧
    (Runner.run ⟨⟨ts, hooks⟩, rep⟩).1 = RustResult.Ok () ∧
    (reportOf (((Runner.run ⟨⟨ts, hooks⟩, rep⟩).2).result)).total_tests = ts.length ∧
    ((List.range ts.length).filter (fun i => decide (k < i) &&
        attempted (Runner.runEvents ⟨⟨ts, hooks⟩, rep⟩) i)).length
      = ts.length - (k + 1) := by
  have hok := runLoop_ok hooks ts 0 initState rfl
  refine ⟨?_, rfl, ?_, ?_⟩
  · rw [runCase_snd]
    unfold caseResult
    unfold caseFaults at hf
    by_cases hp : hooks.any (fun h => h == HookBehavior.panic) = true
    · simp [hp]
    · simp only [hp, Bool.false_or] at hf
      rw [beq_iff_eq] at hf
      rw [hf]
      simp [hp]
  · have hro := reportOf_run ⟨⟨ts, hooks⟩, rep⟩
    dsimp only at hro
    rw [hro, hok.1]
    simp [initState, TestReport.default]
  · have hall : ∀ i ∈ List.range ts.length,
        (decide (k < i) && attempted (Runner.runEvents ⟨⟨ts, hooks⟩, rep⟩) i)
          = decide (k < i) := by
      intro i hi
      rw [List.mem_range] at hi
      have hatt : attempted (Runner.runEvents ⟨⟨ts, hooks⟩, rep⟩) i = true := by
        rw [runEvents_eq]
        dsimp only
        exact traceFrom_attempted hooks ts 0 i (Nat.zero_le i) (by omega)
      rw [hatt, Bool.and_true]
    rw [List.filter_congr hall]
    exact filter_range_gt k ts.length

/-- Witness for C3: the first of two test cases panics. -/
theorem claim3_fault_isolation_witness :
    (0 < ([TestBehavior.panic, TestBehavior.ret (RustResult.Ok ())] : List TestBehavior).length) ∧
    (runCase 0 [] TestBehavior.panic).2 = RustResult.Err () ∧
    (Runner.run ⟨⟨[TestBehavior.panic, TestBehavior.ret (RustResult.Ok ())], []⟩, none⟩).1
      = RustResult.Ok () ∧
    (reportOf (((Runner.run ⟨⟨[TestBehavior.panic, TestBehavior.ret (RustResult.Ok ())],
        []⟩, none⟩).2).result)).total_tests = 2 ∧
    ((List.range 2).filter (fun i => decide (0 < i) &&
        attempted (Runner.runEvents ⟨⟨[TestBehavior.panic,
          TestBehavior.ret (RustResult.Ok ())], []⟩, none⟩) i)).length = 1 :=
  ⟨by decide,
    claim3_fault_isolation [] [TestBehavior.panic, TestBehavior.ret (RustResult.Ok ())]
      none 0 (by decide) (by decide)⟩

/-- C4: `Run()` itself always returns a success value, for every runner,
whatever tests and hooks are registered; the verdict lives only in the
separately stored report. -/
theorem claim4_run_always_ok (r : Runner) :
    (r.run).1 = RustResult.Ok () := rfl

/-- C5: if `Run()` has never been called (the runner has no stored
report), `Result()` returns an all-zero report with `Ok` status. -/
theorem claim5_result_before_run (r : Runner) (h : r.report = none) :
    r.result = RustResult.Ok { total_tests := 0, success_count := 0, error_count := 0 } := by
  unfold Runner.result
  rw [h]
  rfl

/-- Witness for C5: a freshly built runner has no stored report. -/
theorem claim5_result_before_run_witness :
    (describe "root" (fun c => c)).report = none ∧
    (describe "root" (fun c => c)).result
      = RustResult.Ok { total_tests := 0, success_count := 0, error_count := 0 } :=
  ⟨rfl, claim5_result_before_run (describe "root" (fun c => c)) rfl⟩

/-- C6: for every run in which every test case yields Pass and no hook or
case faults, the stored result has overall status `Ok`, with
`success_count` equal to `total_tests` and `error_count` zero. -/
theorem claim6_all_pass (hooks : List HookBehavior) (ts : List TestBehavior)
    (rep : Option (RustResult TestReport TestReport))
    (hh : hooks.all (fun x => x == HookBehavior.ret) = true)
    (ht : ts.all (fun t => t == TestBehavior.ret (RustResult.Ok ())) = true) :
    ((Runner.run ⟨⟨ts, hooks⟩, rep⟩).2).result
      = RustResult.Ok
          { total_tests := ts.length, success_count := ts.length, error_count := 0 } := by
  have hok := runLoop_ok hooks ts 0 initState rfl
  have hallok := caseResults_all_ok hooks ts hh ht
  have hany : (caseResults hooks ts).any isErr = false := any_isErr_all_ok _ hallok
  have hssc : specSuccessCount (caseResults hooks ts) = ts.length := by
    rw [specSuccessCount_all_ok _ hallok]
    simp [caseResults]
  have hres : (runLoop hooks ts 0 initState).result = RustResult.Ok () := by
    rw [hok.2.2.2, hany]
    simp
  have key := run_result_of_ok ⟨⟨ts, hooks⟩, rep⟩ hres
  dsimp only at key
  rw [key]
  have h1 : (runLoop hooks ts 0 initState).report.total_tests = ts.length := by
    rw [hok.1]
    dsimp only [initState, TestReport.default]
    omega
  have h2 : (runLoop hooks ts 0 initState).report.success_count = ts.length := by
    rw [hok.2.1, hssc]
    dsimp only [initState, TestReport.default]
    omega
  have h3 : (runLoop hooks ts 0 initState).report.error_count = 0 := by
    rw [hok.2.2.1, hssc]
    dsimp only [initState, TestReport.default]
    omega
  have hrep : (runLoop hooks ts 0 initState).report
      = { total_tests := ts.length, success_count := ts.length, error_count := 0 } := by
    calc (runLoop hooks ts 0 initState).report
        = { total_tests := (runLoop hooks ts 0 initState).report.total_tests,
            success_count := (runLoop hooks ts 0 initState).report.success_count,
            error_count := (runLoop hooks ts 0 initState).report.error_count } := rfl
      _ = { total_tests := ts.length, success_count := ts.length, error_count := 0 } := by
          rw [h1, h2, h3]
  rw [hrep]

/-- Witness for C6 at one non-faulting hook and two passing tests. -/
theorem claim6_all_pass_witness :
    ([HookBehavior.ret].all (fun x => x == HookBehavior.ret) = true) ∧
    ([TestBehavior.ret (RustResult.Ok ()), TestBehavior.ret (RustResult.Ok ())].all
        (fun t => t == TestBehavior.ret (RustResult.Ok ())) = true) ∧
    ((Runner.run ⟨⟨[TestBehavior.ret (RustResult.Ok ()), TestBehavior.ret (RustResult.Ok ())],
        [HookBehavior.ret]⟩, none⟩).2).result
      = RustResult.Ok { total_tests := 2, success_count := 2, error_count := 0 } :=
  ⟨by decide, by decide,
    claim6_all_pass [HookBehavior.ret]
      [TestBehavior.ret (RustResult.Ok ()), TestBehavior.ret (RustResult.Ok ())] none
      (by decide) (by decide)⟩

/-- C7: for every run with zero registered test cases, after `Run()` the
stored result is an all-zero report with `Ok` status, and no before-hook
is invoked (the trace is empty). -/
theorem claim7_zero_tests (hooks : List HookBehavior)
    (rep : Option (RustResult TestReport TestReport)) :
    ((Runner.run ⟨⟨[], hooks⟩, rep⟩).2).result
      = RustResult.Ok { total_tests := 0, success_count := 0, error_count := 0 } ∧
    Runner.runEvents ⟨⟨[], hooks⟩, rep⟩ = [] :=
  ⟨rfl, rfl⟩

/-- C8: the nested `describe` (Group) invokes the builder exactly once on
the very same context — its result is the builder applied to the given
context; the name is never inspected; and a builder that registers
nothing leaves both sequences unchanged. -/
theorem claim8_group_is_pure_labeling (c : Context) (nm nm2 : String)
    (body : Context → Context) :
    Context.describe c nm body = body c ∧
    Context.describe c nm body = Context.describe c nm2 body ∧
    Context.describe c nm (fun x => x) = c :=
  ⟨rfl, rfl, rfl⟩

/-- C9: calling `Run()` a second time is permitted, returns success, and
repeats the whole algorithm from fresh zeroed accumulators, overwriting
the stored report: the stored report after a run does not depend on any
previously stored report, so `Result()` after the second run equals
`Result()` after the first. -/
theorem claim9_rerun_same_result (r : Runner) (c : Context)
    (rep : Option (RustResult TestReport TestReport)) :
    (((r.run).2).run).1 = RustResult.Ok () ∧
    (((r.run).2).run).2.result = ((r.run).2).result ∧
    ((Runner.run ⟨c, rep⟩).2).report = ((Runner.run ⟨c, none⟩).2).report :=
  ⟨rfl, rfl, rfl⟩

/-- C10: after every completed `Run()`, the stored report satisfies
`total_tests = success_count + error_count`, and a report stored with
`Ok` status has `error_count = 0` and `success_count = total_tests`. -/
theorem claim10_total_is_sum (r : Runner) (rep : TestReport)
    (h : ((r.run).2).result = RustResult.Ok rep ∨
         ((r.run).2).result = RustResult.Err rep) :
    rep.total_tests = rep.success_count + rep.error_count ∧
    (((r.run).2).result = RustResult.Ok rep →
      rep.error_count = 0 ∧ rep.success_count = rep.total_tests) := by
  have hok := runLoop_ok r.describe.before_each r.describe.tests 0 initState rfl
  have hro := reportOf_run r
  have hle := specSuccessCount_le (caseResults r.describe.before_each r.describe.tests)
  have hlen : (caseResults r.describe.before_each r.describe.tests).length
      = r.describe.tests.length := by
    simp [caseResults]
  have hrep : rep = (runLoop r.describe.before_each r.describe.tests 0 initState).report := by
    rcases h with h | h <;> rw [h] at hro <;> exact hro
  constructor
  · rw [hrep, hok.1, hok.2.1, hok.2.2.1]
    simp only [initState, TestReport.default]
    rw [hlen] at hle
    omega
  · intro hOkh
    by_cases hany : (caseResults r.describe.before_each r.describe.tests).any isErr = true
    · exfalso
      have hresE : (runLoop r.describe.before_each r.describe.tests 0 initState).result
          = RustResult.Err () := by
        rw [hok.2.2.2, if_pos hany]
      have hrun := run_result_of_err r hresE
      rw [hrun] at hOkh
      exact RustResult.noConfusion hOkh
    · have hanyf : (caseResults r.describe.before_each r.describe.tests).any isErr
          = false := by
        simpa using hany
      have hssc := specSuccessCount_of_no_err _ hanyf
      constructor
      · rw [hrep, hok.2.2.1, hssc, hlen]
        simp [initState, TestReport.default]
      · rw [hrep, hok.2.1, hok.1, hssc, hlen]
        simp [initState, TestReport.default]

/-- Witness for C10 at a single passing test. -/
theorem claim10_total_is_sum_witness :
    (({ total_tests := 1, success_count := 1, error_count := 0 } : TestReport).total_tests
      = ({ total_tests := 1, success_count := 1, error_count := 0 } : TestReport).success_count
        + ({ total_tests := 1, success_count := 1, error_count := 0 } : TestReport).error_count) ∧
    (((Runner.run ⟨⟨[TestBehavior.ret (RustResult.Ok ())], []⟩, none⟩).2).result
        = RustResult.Ok { total_tests := 1, success_count := 1, error_count := 0 } →
      ({ total_tests := 1, success_count := 1, error_count := 0 } : TestReport).error_count
          = 0 ∧
      ({ total_tests := 1, success_count := 1, error_count := 0 } : TestReport).success_count
        = ({ total_tests := 1, success_count := 1,
             error_count := 0 } : TestReport).total_tests) :=
  claim10_total_is_sum ⟨⟨[TestBehavior.ret (RustResult.Ok ())], []⟩, none⟩
    { total_tests := 1, success_count := 1, error_count := 0 } (Or.inl rfl)
